import Mathlib

/-!
Verification development for the fluent-bit Go plugin bridge
(`cshared.go` plus the registration/`Message` declarations of the
`plugin` package).

The host-facing entry points are modelled as pure functions over explicit
state.  Machine integers are `Nat` with explicit `% 2^32` where the code
truncates to `uint32`.  The msgpack wire format exchanged with the host is
modelled structurally by the inductive `MP`; the time extension payload —
whose exact byte layout is the wire contract — is modelled at byte level
(lists of `Nat` byte values).  Blocking channel operations that can never
complete (a send on the unbuffered output channel with no consumer) and Go
panics are modelled by `Option`/dedicated error constructors: `none` means
the call never returns a status to the host.
-/

/-- Host status codes.  Modelled from the spec: the entry points return "a
small integer status: OK / ERROR / RETRY" (`FLB_OK`, `FLB_ERROR`,
`FLB_RETRY` of the `input`/`output` packages, three distinct values). -/
inductive Status where
  | ok
  | error
  | retry
deriving DecidableEq, Repr

/-- The `Message` struct of the plugin package.  `Time time.Time` is
represented by its Unix seconds and nanoseconds components (`timeSec`,
`timeNsec`); `Record map[string]string` by an association list;
`tag *string` by an `Option`. -/
structure Message where
  timeSec : Nat
  timeNsec : Nat
  Record : List (String × String)
  tag : Option String
deriving DecidableEq, Repr

/-- `Message.Tag`: returns the empty string when the tag pointer is nil,
otherwise dereferences it. -/
def Message.Tag (m : Message) : String :=
  match m.tag with
  | none => ""
  | some t => t

/-- Structural model of a msgpack wire value as exchanged with the host:
integers, strings (their bytes are the UTF-8 encoding of the carried
`String`), arrays, maps, and extension values with a raw byte payload. -/
inductive MP where
  | int (n : Int)
  | str (s : String)
  | arr (xs : List MP)
  | map (kvs : List (MP × MP))
  | ext (tag : Int) (payload : List Nat)

/-- Big-endian 4-byte encoding of a `uint32`-truncated natural, as
`binary.BigEndian.PutUint32(b, uint32(n))` produces. -/
def be32 (n : Nat) : List Nat :=
  [n % 2 ^ 32 / 2 ^ 24, n % 2 ^ 32 / 2 ^ 16 % 256, n % 2 ^ 32 / 2 ^ 8 % 256, n % 2 ^ 32 % 256]

/-- Big-endian read of a 4-byte list, as `binary.BigEndian.Uint32`. -/
def readBE32 (b : List Nat) : Nat :=
  b.foldl (fun acc x => acc * 256 + x) 0

/-- Modelled from the spec: the fixed on-wire time representation of
`bigEndianTime.WriteExt` — 4 bytes big-endian seconds followed by 4 bytes
big-endian nanoseconds. -/
def writeBigEndianTime (sec nsec : Nat) : List Nat :=
  be32 sec ++ be32 nsec

/-- Modelled from the spec: `bigEndianTime.ReadExt` — big-endian seconds
from the first 4 payload bytes, big-endian nanoseconds from the next 4.
Callers guard the length; on payloads shorter than 8 bytes the Go code
panics inside `binary.BigEndian.Uint32`, which is modelled separately
(`EntryErr.timePayloadShort`), so the fallback branch here is unreachable. -/
def readBigEndianTime (payload : List Nat) : Nat × Nat :=
  match payload with
  | b0 :: b1 :: b2 :: b3 :: b4 :: b5 :: b6 :: b7 :: _ =>
    (readBE32 [b0, b1, b2, b3], readBE32 [b4, b5, b6, b7])
  | _ => (0, 0)

/-- Modelled from the spec: the Binary Codec used by the input drain path
(`input.NewEncoder().Encode([]any{t, msg.Record})`) encodes a message as a
2-element sequence `[time, fields]`, the time as the fixed big-endian
extension (tag 0) and the fields as a string-keyed map of string values. -/
def encodeMessage (m : Message) : MP :=
  MP.arr [MP.ext 0 (writeBigEndianTime m.timeSec m.timeNsec),
          MP.map (m.Record.map fun kv => (MP.str kv.1, MP.str kv.2))]

/-- The ways one decoded entry can fail inside `FLBPluginFlush`, one
constructor per exit path of the per-entry checks. -/
inductive EntryErr where
  /-- the codec could not decode the wire value into `[]any` (not an array) -/
  | decodeErr
  /-- `len(entry) != 2` -/
  | arityErr
  /-- `entry[0]` is not the big-endian time extension -/
  | timeTypeErr
  /-- time extension payload shorter than 8 bytes: the Go code panics in
  `ReadExt` and never returns a status (the encoder never emits this) -/
  | timePayloadShort
  /-- `entry[1]` is not a map -/
  | recordTypeErr
  /-- a record key is not a string -/
  | keyTypeErr
  /-- a record value is not a byte sequence -/
  | valueTypeErr
deriving DecidableEq, Repr

/-- Go map assignment `rec[key] = val` on the association-list
representation: overwrite in place if the key is present, append
otherwise. -/
def insertKV : List (String × String) → String → String → List (String × String)
  | [], k, v => [(k, v)]
  | (k', v') :: rest, k, v =>
    if k' = k then (k, v) :: rest else (k', v') :: insertKV rest k v

/-- The record-building loop of `FLBPluginFlush` (`for k, v := range recVal`):
each key must decode as a string and each value as a byte sequence
(msgpack strings decode to `[]uint8` under the handle's defaults;
`string(val)` then recovers the string), otherwise the corresponding
type-assertion error is produced. -/
def decodeRecord : List (MP × MP) → List (String × String) → Except EntryErr (List (String × String))
  | [], acc => Except.ok acc
  | (MP.str k, MP.str v) :: rest, acc => decodeRecord rest (insertKV acc k v)
  | (MP.str _, _) :: _, _ => Except.error EntryErr.valueTypeErr
  | (_, _) :: _, _ => Except.error EntryErr.keyTypeErr

/-- One iteration of the decode loop of `FLBPluginFlush`: decode a wire
value into `[]any`, require exactly 2 elements, require the first to be
the big-endian time extension and the second to be a string-keyed map of
byte-sequence values. -/
def decodeEntry : MP → Except EntryErr ((Nat × Nat) × List (String × String))
  | MP.arr [tv, rv] =>
    match tv with
    | MP.ext 0 payload =>
      if payload.length < 8 then Except.error EntryErr.timePayloadShort
      else
        match rv with
        | MP.map kvs =>
          (decodeRecord kvs []).map fun rec => (readBigEndianTime payload, rec)
        | _ => Except.error EntryErr.recordTypeErr
    | _ => Except.error EntryErr.timeTypeErr
  | MP.arr _ => Except.error EntryErr.arityErr
  | _ => Except.error EntryErr.decodeErr

/-- Boolean success test for `Except`. -/
def exceptOk {ε α : Type _} : Except ε α → Bool
  | Except.ok _ => true
  | Except.error _ => false

/-- The Message built from a decodable entry by the flush loop: the decoded
time and record, tagged with the call's tag (`tag := &tag`).  The fallback
branch is unreachable under the decodability hypotheses of its users. -/
def msgOfEntry (tag : String) (e : MP) : Message :=
  match decodeEntry e with
  | Except.ok ((sec, nsec), rec) => Message.mk sec nsec rec (some tag)
  | Except.error _ => Message.mk 0 0 [] (some tag)

/-- The decode loop of `FLBPluginFlush` over the already-framed wire values
of the blob, for a call during which cancellation is not signalled.
`flushDone` records whether the user's `Flush` goroutine has returned
(stream ended): `theChannel` is unbuffered and `Flush` is its only
receiver, so a send with `flushDone = true` blocks forever — the call
never returns a status, modelled as `none`.  A short time-extension
payload makes the Go code panic, also never returning a status.
Result: `some (status, messages sent on theChannel in order)`. -/
def flushLoop (flushDone : Bool) (tag : String) : List MP → Option (Status × List Message)
  | [] => some (Status.ok, [])
  | e :: rest =>
    match decodeEntry e with
    | Except.error EntryErr.timePayloadShort => none
    | Except.error _ => some (Status.error, [])
    | Except.ok ((sec, nsec), rec) =>
      if flushDone then none
      else
        match flushLoop flushDone tag rest with
        | none => none
        | some (st, ms) => some (st, Message.mk sec nsec rec (some tag) :: ms)

/-- One `FLBPluginFlush` call on an output plugin (`theOutput ≠ nil`,
initialisation complete).  `started` is the state of `once` before the
call; the `once.Do` body — spawning the single goroutine that runs the
user's `Flush` — executes exactly when `started` is false, reported in the
first component.  The local `err` checked after `once.Do` is freshly nil
on every call after the first (the goroutine assigns the first call's
local), and on the first call the spawned goroutine has not yet returned,
so the `err != nil` branch is not taken.  `cancelled` is the (call-
constant) state of `runCtx`; when set, the pre-decode select returns
`FLB_OK` (plain cancellation makes `runCtx.Err()` equal
`context.Canceled`).  Second component as in `flushLoop`. -/
def FLBPluginFlush (started flushDone cancelled : Bool) (tag : String) (blob : List MP) :
    Bool × Option (Status × List Message) :=
  let fd := started && flushDone
  if cancelled then (!started, some (Status.ok, []))
  else (!started, flushLoop fd tag blob)

/-- The drain loop of `FLBPluginInputCallback` for a call during which
cancellation is not signalled: `msgs` are the messages currently buffered
in `theChannel`, `enc` the (fallible) host-format encoder
`input.NewEncoder().Encode` applied to one message, `acc` the contents of
`buf`.  On an encode failure the call returns `FLB_ERROR` immediately,
leaving `*data`/`*csize` unset (`none`); otherwise the concatenated batch
is handed over exactly when it is non-empty. -/
def drainLoop (enc : Message → Except String (List Nat)) :
    List Message → List Nat → Status × Option (List Nat)
  | [], acc => (Status.ok, if acc.length > 0 then some acc else none)
  | m :: rest, acc =>
    match enc m with
    | Except.error _ => (Status.error, none)
    | Except.ok b => drainLoop enc rest (acc ++ b)

/-- One `FLBPluginInputCallback` call on an input plugin (initialisation
complete, startup already performed, cancellation not signalled), as a
function of the buffered messages and the encoder. -/
def FLBPluginInputCallback (enc : Message → Except String (List Nat)) (msgs : List Message) :
    Status × Option (List Nat) :=
  drainLoop enc msgs []

/-- The registered plugin's role. -/
inductive Role where
  | input
  | output
deriving DecidableEq, Repr

/-- A host-facing data entry point: the input poll callback or the output
flush callback. -/
inductive EntryPoint where
  | poll
  | flush
deriving DecidableEq, Repr

/-- Whether an entry point reaches its `once.Do`: `FLBPluginInputCallback`
returns `FLB_RETRY` first when `theInput == nil`, and `FLBPluginFlush`
returns `FLB_RETRY` first when `theOutput == nil`, so only the entry point
matching the registered role reaches the one-shot start action. -/
def entryMatches (r : Role) (e : EntryPoint) : Bool :=
  match r, e with
  | Role.input, EntryPoint.poll => true
  | Role.output, EntryPoint.flush => true
  | _, _ => false

/-- Threads the `once` flag through a sequence of entry-point invocations;
for each invocation, records whether the one-shot start action (the
`once.Do` body creating `runCtx`/`theChannel` and spawning the pipeline
workers) executed during that call. -/
def runFires (r : Role) (started : Bool) : List EntryPoint → List Bool
  | [] => []
  | e :: es =>
    if entryMatches r e then (!started) :: runFires r true es
    else false :: runFires r started es

/-- The registration state of the plugin package: the `atomicUint32` flag
consulted by `mustOnce`, the identity variables, and whether
`theInput`/`theOutput` are non-nil. -/
structure RegState where
  registered : Bool
  theName : String
  theDesc : String
  hasInput : Bool
  hasOutput : Bool
deriving DecidableEq, Repr

/-- The state of a freshly loaded instance: nothing registered. -/
def initialRegState : RegState :=
  RegState.mk false "" "" false false

/-- `mustOnce`: panics (modelled `none`) when the flag is already set,
otherwise sets it. -/
def mustOnce (registered : Bool) : Option Bool :=
  if registered then none else some true

/-- `RegisterInput name desc in`: `mustOnce` then record the identity and
the input implementation.  `none` models the panic. -/
def RegisterInput (name desc : String) (st : RegState) : Option RegState :=
  (mustOnce st.registered).map fun flag =>
    RegState.mk flag name desc true st.hasOutput

/-- `RegisterOutput name desc out`: `mustOnce` then record the identity and
the output implementation.  `none` models the panic. -/
def RegisterOutput (name desc : String) (st : RegState) : Option RegState :=
  (mustOnce st.registered).map fun flag =>
    RegState.mk flag name desc st.hasInput true

/-- A registration call of either role. -/
def registerCall (r : Role) (name desc : String) (st : RegState) : Option RegState :=
  match r with
  | Role.input => RegisterInput name desc st
  | Role.output => RegisterOutput name desc st

/-- The status returned by `FLBPluginRegister`: `FLB_RETRY` when neither an
input nor an output implementation is registered, otherwise the result of
the host-side registration call (external, abstracted as `hostResult`). -/
def FLBPluginRegister (st : RegState) (hostResult : Status) : Status :=
  if !st.hasInput && !st.hasOutput then Status.retry else hostResult

/-- The status returned by `FLBPluginInit`: `FLB_RETRY` when neither an
input nor an output implementation is registered, otherwise the outcome of
the remaining initialisation (external calls and the user's `Init`,
abstracted as `rest`). -/
def FLBPluginInit (st : RegState) (rest : Status) : Status :=
  if !st.hasInput && !st.hasOutput then Status.retry else rest

/-- Hexadecimal digit value, as Go `strconv` accepts (0-9, a-f, A-F). -/
def hexVal (c : Char) : Option Nat :=
  if '0' ≤ c ∧ c ≤ '9' then some (c.toNat - '0'.toNat)
  else if 'a' ≤ c ∧ c ≤ 'f' then some (c.toNat - 'a'.toNat + 10)
  else if 'A' ≤ c ∧ c ≤ 'F' then some (c.toNat - 'A'.toNat + 10)
  else none

/-- Octal digit value. -/
def octVal (c : Char) : Option Nat :=
  if '0' ≤ c ∧ c ≤ '7' then some (c.toNat - '0'.toNat) else none

/-- Reads exactly `n` hexadecimal digits, accumulating their value. -/
def hexSeq (acc : Nat) : Nat → List Char → Option (Nat × List Char)
  | 0, r => some (acc, r)
  | _ + 1, [] => none
  | n + 1, c :: r =>
    match hexVal c with
    | none => none
    | some d => hexSeq (acc * 16 + d) n r

/-- Unicode scalar value test, as Go `utf8.ValidRune` (and Lean
`Nat.isValidChar`): below the surrogate range or between it and the
maximal rune. -/
def isValidRune (n : Nat) : Bool :=
  decide (n < 0xd800 ∨ (0xdfff < n ∧ n ≤ 0x10ffff))

/-- Modelled from the Go standard library `strconv.UnquoteChar`, escape
cases (the input starts right after the backslash); `quote` is the
surrounding quote character.  Byte-valued escapes (`\xHH`, octal) whose
value is not ASCII are modelled as the corresponding code point (Go
appends the raw byte to the result). -/
def unquoteEsc (quote : Char) : List Char → Option (Char × List Char)
  | [] => none
  | c :: r =>
    if c = 'a' then some (Char.ofNat 7, r)
    else if c = 'b' then some (Char.ofNat 8, r)
    else if c = 'f' then some (Char.ofNat 12, r)
    else if c = 'n' then some ('\n', r)
    else if c = 'r' then some ('\r', r)
    else if c = 't' then some ('\t', r)
    else if c = 'v' then some (Char.ofNat 11, r)
    else if c = 'x' then
      match hexSeq 0 2 r with
      | none => none
      | some (v, r') => some (Char.ofNat v, r')
    else if c = 'u' then
      match hexSeq 0 4 r with
      | none => none
      | some (v, r') => if isValidRune v then some (Char.ofNat v, r') else none
    else if c = 'U' then
      match hexSeq 0 8 r with
      | none => none
      | some (v, r') => if isValidRune v then some (Char.ofNat v, r') else none
    else if c = '\\' then some ('\\', r)
    else if c = '\x27' ∨ c = '"' then
      if c = quote then some (c, r) else none
    else
      match octVal c, r with
      | some d1, c2 :: c3 :: r' =>
        match octVal c2, octVal c3 with
        | some d2, some d3 =>
          let v := (d1 * 8 + d2) * 8 + d3
          if v < 256 then some (Char.ofNat v, r') else none
        | _, _ => none
      | _, _ => none

/-- Modelled from the Go standard library `strconv.unquote`, quoted-string
loop: consume characters and escape sequences until the terminating quote,
rejecting unescaped newlines; returns the decoded content and the
remainder after the terminating quote.  `fuel` bounds the recursion (each
step consumes at least one character, so any fuel of at least the input
length behaves as the unbounded loop). -/
def unquoteBody (quote : Char) : Nat → List Char → Option (List Char × List Char)
  | 0, _ => none
  | _ + 1, [] => none
  | fuel + 1, c :: r =>
    if c = quote then some ([], r)
    else if c = '\n' then none
    else if c = '\\' then
      match unquoteEsc quote r with
      | none => none
      | some (ch, r') =>
        match unquoteBody quote fuel r' with
        | none => none
        | some (out, rem) => some (ch :: out, rem)
    else
      match unquoteBody quote fuel r with
      | none => none
      | some (out, rem) => some (c :: out, rem)

/-- Modelled from the Go standard library `strconv.unquote`, backquoted
raw-string case: the content runs to the final backquote, which must close
the whole input; no interior backquote is allowed, and carriage returns
are discarded. -/
def rawBody : List Char → Option (List Char)
  | [] => none
  | [c] => if c = '\x60' then some [] else none
  | c :: r =>
    if c = '\x60' then none
    else if c = '\r' then rawBody r
    else (rawBody r).map fun out => c :: out

/-- Modelled from the Go standard library `strconv.Unquote`: a
double-quoted, single-quoted, or backquoted literal spanning the whole
input; a single-quoted literal must contain exactly one character; any
trailing input after the closing quote is an error. -/
def goUnquote (s : String) : Option String :=
  match s.data with
  | [] => none
  | [_] => none
  | c :: rest =>
    if c = '"' then
      match unquoteBody '"' (rest.length + 1) rest with
      | some (out, []) => some (String.mk out)
      | _ => none
    else if c = '\x27' then
      match unquoteBody '\x27' (rest.length + 1) rest with
      | some ([ch], []) => some (String.mk [ch])
      | _ => none
    else if c = '\x60' then
      match rawBody rest with
      | some out => some (String.mk out)
      | none => none
    else none

/-- `strings.Contains(s, "\n")` for the two-character backslash-n
sequence. -/
def containsEscN : List Char → Bool
  | '\\' :: 'n' :: _ => true
  | _ :: r => containsEscN r
  | [] => false

/-- The wrapping `"\"" + s + "\""` applied before the second unquoting
attempt. -/
def wrapQuotes (s : String) : String :=
  "\"" ++ s ++ "\""

/-- `unquote` from `cshared.go`: try `strconv.Unquote` directly; failing
that, if the raw value contains a literal backslash-n sequence, retry with
the value wrapped in double quotes; otherwise return the value
unmodified. -/
def unquote (s : String) : String :=
  match goUnquote s with
  | some t => t
  | none =>
    if containsEscN s.data then
      match goUnquote (wrapQuotes s) with
      | some t => t
      | none => s
    else s

/-- `flbInputConfigLoader.String` (and its output twin): look the key up in
the host configuration and unescape the raw value. -/
def flbConfigString (hostLookup : String → String) (key : String) : String :=
  unquote (hostLookup key)

lemma readBE32_be32 (n : Nat) : readBE32 (be32 n) = n % 2 ^ 32 := by
  simp only [readBE32, be32, List.foldl]
  omega

lemma insertKV_of_not_mem (acc : List (String × String)) (k v : String)
    (h : k ∉ acc.map Prod.fst) : insertKV acc k v = acc ++ [(k, v)] := by
  induction acc with
  | nil => rfl
  | cons p rest ih =>
    obtain ⟨k', v'⟩ := p
    simp only [List.map_cons, List.mem_cons] at h
    push_neg at h
    have hk : ¬ (k' = k) := fun hh => h.1 hh.symm
    simp only [insertKV, if_neg hk, List.cons_append, ih h.2]

lemma decodeRecord_encoded (kvs acc : List (String × String))
    (hd : ∀ p ∈ kvs, p.1 ∉ acc.map Prod.fst)
    (hnd : (kvs.map Prod.fst).Nodup) :
    decodeRecord (kvs.map fun p => (MP.str p.1, MP.str p.2)) acc = Except.ok (acc ++ kvs) := by
  induction kvs generalizing acc with
  | nil => simp [decodeRecord]
  | cons p rest ih =>
    obtain ⟨k, v⟩ := p
    simp only [List.map_cons, List.nodup_cons, List.mem_map] at hnd
    simp only [List.map_cons, decodeRecord]
    rw [insertKV_of_not_mem acc k v (hd (k, v) (List.mem_cons_self _ _))]
    rw [ih (acc ++ [(k, v)])]
    · simp
    · intro q hq
      simp only [List.map_append, List.mem_append, List.map_cons, List.map_nil,
        List.mem_singleton]
      push_neg
      refine ⟨hd q (List.mem_cons_of_mem _ hq), fun hqk => ?_⟩
      exact hnd.1 ⟨q, hq, hqk⟩
    · exact hnd.2

/-- C1: encoding any Message with a representable timestamp (seconds
fitting the 32-bit on-wire field, nanoseconds below one second — the
invariant of `time.Time`) and any string record (an association list with
the key uniqueness of a Go map) the way the input drain path does, then
decoding it the way the flush path does, recovers the timestamp exactly
and every key/value pair of the record. -/
theorem codec_roundtrip_preserves_message (m : Message)
    (hsec : m.timeSec < 2 ^ 32) (hnsec : m.timeNsec < 10 ^ 9)
    (hkeys : (m.Record.map Prod.fst).Nodup) :
    decodeEntry (encodeMessage m) = Except.ok ((m.timeSec, m.timeNsec), m.Record) := by
  simp only [encodeMessage, decodeEntry]
  rw [decodeRecord_encoded m.Record [] (by simp) hkeys]
  norm_num [writeBigEndianTime, be32, readBigEndianTime, Except.map, readBE32, List.foldl,
    Prod.mk.injEq]
  omega

lemma msgOfEntry_tag (tag : String) (e : MP) : (msgOfEntry tag e).tag = some tag := by
  unfold msgOfEntry
  cases hd : decodeEntry e with
  | ok v => obtain ⟨⟨sec, nsec⟩, rec⟩ := v; rfl
  | error err => rfl

lemma flushLoop_all_ok (tag : String) (blob : List MP)
    (h : ∀ e ∈ blob, exceptOk (decodeEntry e) = true) :
    flushLoop false tag blob = some (Status.ok, blob.map (msgOfEntry tag)) := by
  induction blob with
  | nil => rfl
  | cons e rest ih =>
    have he := h e (List.mem_cons_self _ _)
    have ih' := ih fun x hx => h x (List.mem_cons_of_mem _ hx)
    cases hd : decodeEntry e with
    | error err => rw [hd] at he; simp [exceptOk] at he
    | ok v =>
      obtain ⟨⟨sec, nsec⟩, rec⟩ := v
      simp only [flushLoop, hd, Bool.false_eq_true, if_false, ih', List.map_cons]
      have hm : msgOfEntry tag e = Message.mk sec nsec rec (some tag) := by
        unfold msgOfEntry; rw [hd]
      rw [hm]

lemma flushLoop_error_after_prefix (tag : String) (good : List MP) (bad : MP)
    (rest : List MP) (err : EntryErr)
    (hg : ∀ e ∈ good, exceptOk (decodeEntry e) = true)
    (hbad : decodeEntry bad = Except.error err)
    (hnp : err ≠ EntryErr.timePayloadShort) :
    flushLoop false tag (good ++ bad :: rest) =
      some (Status.error, good.map (msgOfEntry tag)) := by
  induction good with
  | nil =>
    simp only [List.nil_append, flushLoop, hbad, List.map_nil]
  | cons e good' ih =>
    have he := hg e (List.mem_cons_self _ _)
    have ih' := ih fun x hx => hg x (List.mem_cons_of_mem _ hx)
    cases hd : decodeEntry e with
    | error e' => rw [hd] at he; simp [exceptOk] at he
    | ok v =>
      obtain ⟨⟨sec, nsec⟩, rec⟩ := v
      have hm : msgOfEntry tag e = Message.mk sec nsec rec (some tag) := by
        unfold msgOfEntry; rw [hd]
      simp only [List.cons_append, flushLoop, List.append_eq, hd, Bool.false_eq_true,
        if_false, ih', List.map_cons, hm]

/-- C2: a flush call (cancellation not signalled, the user's `Flush` still
consuming) whose blob decodes without error enqueues one Message per
decoded pair on the user Flush stream, each carrying the call's tag, in
exactly the order the pairs appear in the blob, and returns `FLB_OK`. -/
theorem flush_enqueues_in_decode_order (started : Bool) (tag : String) (blob : List MP)
    (h : ∀ e ∈ blob, exceptOk (decodeEntry e) = true) :
    (FLBPluginFlush started false false tag blob).2 =
        some (Status.ok, blob.map (msgOfEntry tag)) ∧
      ∀ m ∈ blob.map (msgOfEntry tag), m.tag = some tag := by
  refine ⟨?_, ?_⟩
  · simp only [FLBPluginFlush, Bool.and_false, Bool.false_eq_true, if_false]
    exact flushLoop_all_ok tag blob h
  · intro m hm
    obtain ⟨e, _, rfl⟩ := List.mem_map.mp hm
    exact msgOfEntry_tag tag e

/-- C2 witness: end-to-end scenario 2 — a blob encoding
`[(t1, a=b), (t2, c=d)]` flushed with tag `mytag` delivers exactly those
two records, tagged `mytag`, in that order. -/
theorem flush_enqueues_in_decode_order_witness :
    (FLBPluginFlush true false false "mytag"
        [MP.arr [MP.ext 0 (writeBigEndianTime 11 0), MP.map [(MP.str "a", MP.str "b")]],
         MP.arr [MP.ext 0 (writeBigEndianTime 22 0), MP.map [(MP.str "c", MP.str "d")]]]).2 =
        some (Status.ok,
          [Message.mk 11 0 [("a", "b")] (some "mytag"),
           Message.mk 22 0 [("c", "d")] (some "mytag")]) ∧
      ∀ m ∈ [Message.mk 11 0 [("a", "b")] (some "mytag"),
             Message.mk 22 0 [("c", "d")] (some "mytag")], m.tag = some "mytag" :=
  flush_enqueues_in_decode_order true "mytag"
    [MP.arr [MP.ext 0 (writeBigEndianTime 11 0), MP.map [(MP.str "a", MP.str "b")]],
     MP.arr [MP.ext 0 (writeBigEndianTime 22 0), MP.map [(MP.str "c", MP.str "d")]]]
    (by decide)

/-- C4: a flush call (cancellation not signalled, the user's `Flush` still
consuming) whose blob has a failing entry — wrong arity, non-time first
element, non-map second element, non-string key or non-byte-sequence value
— returns `FLB_ERROR`, and exactly the records decoded before the failing
entry have already been enqueued to the consumer (no rollback). -/
theorem flush_decode_error_keeps_delivered_prefix (started : Bool) (tag : String)
    (good : List MP) (bad : MP) (rest : List MP) (err : EntryErr)
    (hg : ∀ e ∈ good, exceptOk (decodeEntry e) = true)
    (hbad : decodeEntry bad = Except.error err)
    (hnp : err ≠ EntryErr.timePayloadShort) :
    (FLBPluginFlush started false false tag (good ++ bad :: rest)).2 =
      some (Status.error, good.map (msgOfEntry tag)) := by
  simp only [FLBPluginFlush, Bool.and_false, Bool.false_eq_true, if_false]
  exact flushLoop_error_after_prefix tag good bad rest err hg hbad hnp

/-- C4 witness: end-to-end scenario 3 — record 2 of a 3-record blob fails
to decode (its first element is not a time): record 1 has been delivered
and the call returns `FLB_ERROR`. -/
theorem flush_decode_error_keeps_delivered_prefix_witness :
    (FLBPluginFlush true false false "mytag"
        [MP.arr [MP.ext 0 (writeBigEndianTime 1 0), MP.map [(MP.str "a", MP.str "b")]],
         MP.arr [MP.int 1, MP.map []],
         MP.arr [MP.ext 0 (writeBigEndianTime 3 0), MP.map []]]).2 =
      some (Status.error, [Message.mk 1 0 [("a", "b")] (some "mytag")]) :=
  flush_decode_error_keeps_delivered_prefix true "mytag"
    [MP.arr [MP.ext 0 (writeBigEndianTime 1 0), MP.map [(MP.str "a", MP.str "b")]]]
    (MP.arr [MP.int 1, MP.map []])
    [MP.arr [MP.ext 0 (writeBigEndianTime 3 0), MP.map []]]
    EntryErr.timeTypeErr (by decide) (by rfl) (by decide)

/-- C5 counterexample: a flush call made after the user's `Flush` has
returned (`flushDone = true`) and before cancellation, whose blob holds
one well-formed record, sends on the unbuffered `theChannel` with no
remaining receiver: the call blocks forever (`none`) and in particular
never returns the `FLB_OK` status the claim promises. -/
theorem flush_after_stream_end_cex :
    (FLBPluginFlush true true false "mytag"
        [MP.arr [MP.ext 0 (writeBigEndianTime 1 0), MP.map []]]).2 = none := by rfl

/-- C5 as amended: a flush call after the user's `Flush` has returned and
before cancellation never re-invokes `Flush`; it returns `FLB_OK` only
when the blob is empty; when the first entry of the blob decodes it blocks
forever on the enqueue (no status is returned); when the first entry fails
to decode it returns `FLB_ERROR` having delivered nothing. -/
theorem flush_after_stream_end_behavior (tag : String) (blob : List MP) :
    (FLBPluginFlush true true false tag blob).1 = false ∧
      (blob = [] → (FLBPluginFlush true true false tag blob).2 = some (Status.ok, [])) ∧
      (∀ e rest, blob = e :: rest → exceptOk (decodeEntry e) = true →
        (FLBPluginFlush true true false tag blob).2 = none) ∧
      (∀ e rest err, blob = e :: rest → decodeEntry e = Except.error err →
        err ≠ EntryErr.timePayloadShort →
        (FLBPluginFlush true true false tag blob).2 = some (Status.error, [])) := by
  refine ⟨rfl, ?_, ?_, ?_⟩
  · rintro rfl; rfl
  · rintro e rest rfl he
    cases hd : decodeEntry e with
    | error err => rw [hd] at he; simp [exceptOk] at he
    | ok v =>
      obtain ⟨⟨sec, nsec⟩, rec⟩ := v
      simp [FLBPluginFlush, flushLoop, hd]
  · rintro e rest err rfl hd hnp
    simp only [FLBPluginFlush, Bool.and_self, Bool.false_eq_true, if_false, flushLoop, hd]

/-- C5 witness for the amended statement: with a concrete well-formed
single-record blob, the call does not re-invoke `Flush` and blocks. -/
theorem flush_after_stream_end_behavior_witness :
    (FLBPluginFlush true true false "mytag"
        [MP.arr [MP.ext 0 (writeBigEndianTime 7 0), MP.map []]]).1 = false ∧
      (FLBPluginFlush true true false "mytag"
        [MP.arr [MP.ext 0 (writeBigEndianTime 7 0), MP.map []]]).2 = none := by
  have h := flush_after_stream_end_behavior "mytag"
    [MP.arr [MP.ext 0 (writeBigEndianTime 7 0), MP.map []]]
  exact ⟨h.1, h.2.2.1 (MP.arr [MP.ext 0 (writeBigEndianTime 7 0), MP.map []]) [] rfl (by decide)⟩

/-- C1 witness: the round trip on a concrete message. -/
theorem codec_roundtrip_preserves_message_witness :
    decodeEntry (encodeMessage (Message.mk 1700000000 123456789 [("a", "b"), ("c", "d")] none)) =
      Except.ok ((1700000000, 123456789), [("a", "b"), ("c", "d")]) :=
  codec_roundtrip_preserves_message
    (Message.mk 1700000000 123456789 [("a", "b"), ("c", "d")] none)
    (by norm_num) (by norm_num) (by decide)

/-- C3: whatever the roles and identities of the first and a second
registration call in one loaded instance, the second call panics
(`mustOnce` aborts); it never succeeds and never returns a recoverable
error, so at most one registration ever exists. -/
theorem double_registration_always_panics (r1 r2 : Role) (n1 d1 n2 d2 : String)
    (st1 : RegState) (h : registerCall r1 n1 d1 initialRegState = some st1) :
    registerCall r2 n2 d2 st1 = none := by
  cases r1 <;>
    simp [registerCall, RegisterInput, RegisterOutput, mustOnce, initialRegState] at h <;>
    subst h <;> cases r2 <;> rfl

/-- C3 witness: an input registration followed by an output registration
panics on the second call. -/
theorem double_registration_always_panics_witness :
    registerCall Role.output "out" "d2" (RegState.mk true "in" "d1" true false) = none :=
  double_registration_always_panics Role.input Role.output "in" "d1" "out" "d2"
    (RegState.mk true "in" "d1" true false) (by rfl)

/-- C6 counterexample: with no plugin registered, `FLBPluginRegister` and
`FLBPluginInit` return `FLB_RETRY` — the retryable status — not the
`FLB_ERROR` status the claim asserts. -/
theorem no_plugin_status_retry_cex :
    FLBPluginRegister initialRegState Status.ok = Status.retry ∧
      FLBPluginInit initialRegState Status.ok = Status.retry ∧
      Status.retry ≠ Status.error := by decide

/-- C6 as amended: every invocation of the host-facing Register or Init
entry point made while no plugin implementation is registered returns the
RETRY status (not ERROR), whatever the rest of the call would produce. -/
theorem no_plugin_register_init_retry (st : RegState) (hostResult rest : Status)
    (hi : st.hasInput = false) (ho : st.hasOutput = false) :
    FLBPluginRegister st hostResult = Status.retry ∧
      FLBPluginInit st rest = Status.retry := by
  simp [FLBPluginRegister, FLBPluginInit, hi, ho]

/-- C6 witness for the amended statement, on the fresh instance state. -/
theorem no_plugin_register_init_retry_witness :
    FLBPluginRegister initialRegState Status.ok = Status.retry ∧
      FLBPluginInit initialRegState Status.error = Status.retry :=
  no_plugin_register_init_retry initialRegState Status.ok Status.error (by rfl) (by rfl)

lemma drainLoop_error (enc : Message → Except String (List Nat))
    (pre : List Message) (bad : Message) (post : List Message) (acc : List Nat)
    (hpre : ∀ m ∈ pre, exceptOk (enc m) = true)
    (hbad : exceptOk (enc bad) = false) :
    drainLoop enc (pre ++ bad :: post) acc = (Status.error, none) := by
  induction pre generalizing acc with
  | nil =>
    simp only [List.nil_append, drainLoop]
    cases hd : enc bad with
    | error e => simp [hd]
    | ok b => rw [hd] at hbad; simp [exceptOk] at hbad
  | cons m pre' ih =>
    have hm := hpre m (List.mem_cons_self _ _)
    cases hd : enc m with
    | error e => rw [hd] at hm; simp [exceptOk] at hm
    | ok b =>
      simp only [List.cons_append, drainLoop, hd]
      exact ih (acc ++ b) fun x hx => hpre x (List.mem_cons_of_mem _ hx)

/-- C7: a drain (poll) call in which encoding some buffered message fails
returns `FLB_ERROR` and hands no batch to the host at all: the output
buffer pointer and size remain unset. -/
theorem drain_encode_failure_no_batch (enc : Message → Except String (List Nat))
    (msgs pre post : List Message) (bad : Message)
    (hsplit : msgs = pre ++ bad :: post)
    (hpre : ∀ m ∈ pre, exceptOk (enc m) = true)
    (hbad : exceptOk (enc bad) = false) :
    FLBPluginInputCallback enc msgs = (Status.error, none) := by
  subst hsplit
  exact drainLoop_error enc pre bad post [] hpre hbad

/-- C7 witness: a one-message buffer whose encoder fails. -/
theorem drain_encode_failure_no_batch_witness :
    FLBPluginInputCallback (fun _ => Except.error "encode failed")
        [Message.mk 0 0 [] none] = (Status.error, none) :=
  drain_encode_failure_no_batch (fun _ => Except.error "encode failed")
    [Message.mk 0 0 [] none] [] [] (Message.mk 0 0 [] none) (by rfl)
    (by intro m hm; exact absurd hm (List.not_mem_nil m)) (by rfl)

lemma runFires_started (r : Role) (es : List EntryPoint) :
    runFires r true es = List.replicate es.length false := by
  induction es with
  | nil => rfl
  | cons e es ih =>
    cases hh : entryMatches r e <;>
      simp [runFires, hh, ih, List.replicate_succ]

/-- C8: over any sequence of poll and flush invocations from a fresh
process, the one-shot start action (the `once.Do` body creating the run
context and primary channel and spawning the pipeline workers) executes at
most once; and when the first invocation is of the entry point matching
the registered role, that first invocation triggers it and every later
invocation is a startup no-op. -/
theorem start_action_fires_at_most_once (r : Role) (es : List EntryPoint) :
    (runFires r false es).count true ≤ 1 ∧
      ∀ e rest, es = e :: rest → entryMatches r e = true →
        runFires r false es = true :: List.replicate rest.length false := by
  constructor
  · induction es with
    | nil => simp [runFires]
    | cons e es ih =>
      cases hh : entryMatches r e
      · simpa [runFires, hh] using ih
      · simp [runFires, hh, runFires_started, List.count_replicate]
  · rintro e rest rfl hm
    simp [runFires, hm, runFires_started]

/-- C8 witness: two poll calls on an input plugin — the start action fires
on the first and not on the second. -/
theorem start_action_fires_at_most_once_witness :
    (runFires Role.input false [EntryPoint.poll, EntryPoint.poll]).count true ≤ 1 ∧
      runFires Role.input false [EntryPoint.poll, EntryPoint.poll] = [true, false] := by
  have h := start_action_fires_at_most_once Role.input [EntryPoint.poll, EntryPoint.poll]
  exact ⟨h.1, by simpa using h.2 EntryPoint.poll [EntryPoint.poll] rfl rfl⟩

/-- C9: the config String lookup applies `unquote` to the raw value, which
is total and unescapes: a raw value parseable as a quoted literal
(`strconv.Unquote`, modelled by `goUnquote`) is unquoted; otherwise a
value containing a literal backslash-n sequence is unescaped by parsing it
wrapped in double quotes; any value parseable neither way is returned
unmodified, never an error. -/
theorem config_string_total_unescape (s : String) :
    (∀ t, goUnquote s = some t → unquote s = t) ∧
      (goUnquote s = none → containsEscN s.data = true →
        ∀ t, goUnquote (wrapQuotes s) = some t → unquote s = t) ∧
      (goUnquote s = none →
        (containsEscN s.data = false ∨ goUnquote (wrapQuotes s) = none) →
        unquote s = s) := by
  refine ⟨fun t h => ?_, fun h1 h2 t h3 => ?_, fun h1 h2 => ?_⟩
  · simp [unquote, h]
  · simp [unquote, h1, h2, h3]
  · rcases h2 with h2 | h2 <;> simp [unquote, h1, h2]

/-- C9 witness: a quoted literal is unquoted, a raw value with a literal
backslash-n has it unescaped to a newline, and an unparseable value passes
through unmodified. -/
theorem config_string_total_unescape_witness :
    unquote "\"q v\"" = "q v" ∧ unquote "x\\ny" = "x\ny" ∧ unquote "plain" = "plain" :=
  ⟨(config_string_total_unescape "\"q v\"").1 "q v" (by rfl),
   (config_string_total_unescape "x\\ny").2.1 (by rfl) (by rfl) "x\ny" (by rfl),
   (config_string_total_unescape "plain").2.2 (by rfl) (Or.inl (by rfl))⟩

/-- C10: `Message.Tag` is total, and on any Message whose tag was never set
(nil tag pointer, as for every collector-produced message) it returns the
empty string instead of dereferencing the nil pointer. -/
theorem tag_nil_returns_empty (m : Message) (h : m.tag = none) : m.Tag = "" := by
  simp [Message.Tag, h]

/-- C10 witness: a collector-style message with no tag. -/
theorem tag_nil_returns_empty_witness :
    (Message.mk 0 0 [("k", "v")] none).Tag = "" :=
  tag_nil_returns_empty (Message.mk 0 0 [("k", "v")] none) (by rfl)
